import Mathlib

/-!
# Verification of cmsutil (src/main.rs)

A shallow embedding of the `cmsutil` command-line program. The program
resolves certificates from a store (OS store or PFX container), acquires a
private key for the signer (encode) or recipient (decode), optionally
injects a PIN, and runs a CMS sign+encrypt or decrypt+verify transform.

The external `wincms` library calls (`find_cert_by_subject_str`,
`acquire_key`, `get_provider_name`, `get_name`, `set_pin`,
`sign_and_encrypt`, `decrypt_and_verify`) and file reading are modelled as
an oracle environment `Env` of fallible functions; the control flow of
`main` is translated literally from the source. Runs additionally record a
trace of observable events (PIN injection, pipeline invocation, output
writing) so that ordering properties can be stated.

The internals of the CMS content builder and pipeline are not part of this
repository's source; they are modelled from the spec in the `Cms`
namespace.
-/

set_option autoImplicit false

namespace Cmsutil

/-- Store kinds accepted by `--store-type` (wincms `CertStoreType`); the
source uses `CurrentUser` as the default. -/
inductive CertStoreType where
  | CurrentUser
  | LocalMachine
  | Service
deriving DecidableEq

/-- A private-key handle (wincms `NCryptKey`): provider name and key name
are the attributes the program reads from it. -/
structure NCryptKey where
  provider : String
  name : String
deriving DecidableEq

/-- A certificate handle (wincms `CertContext`): subject string plus the
key handle stored into it by a successful `acquire_key` (before
acquisition the field is `none`; `cert.key()` reads it). -/
structure CertContext where
  subject : String
  key : Option NCryptKey
deriving DecidableEq

/-- The built CMS content as consumed at the call site
`CmsContent::builder().signer(s).recipients(r).build()` in `main.rs`:
one signer and a recipient list. -/
structure CmsContent where
  signer : CertContext
  recipients : List CertContext
deriving DecidableEq

/-- Oracle environment: the fallible external calls made by `main`,
closed over the opened certificate store. Errors are opaque strings. -/
structure Env where
  findCert : String → Except String (List CertContext)
  acquireKey : CertContext → Bool → Except String NCryptKey
  getProviderName : NCryptKey → Except String String
  getKeyName : NCryptKey → Except String String
  setPin : NCryptKey → String → Except String Unit
  signAndEncrypt : CmsContent → List Nat → Except String (List Nat)
  decryptAndVerify : List Nat → Except String (List Nat)
  readFile : String → Except String (List Nat)

/-- Global command-line parameters of `AppParams` relevant to the claims
(input/output paths are abstracted into the message source argument and
the output event). -/
structure AppParams where
  pin : Option String
  silent : Bool
  store_type : Option CertStoreType
  pfx_file : Option String
deriving DecidableEq

/-- The `encode` subcommand: signer query and recipient queries. -/
structure CmsEncodeCmd where
  signer : String
  recipients : List String
deriving DecidableEq

/-- The `decode` subcommand: a single recipient query. -/
structure CmsDecodeCmd where
  recipient : String
deriving DecidableEq

/-- Errors a run can end with: propagated collaborator errors (`io`), the
identity errors constructed in `main` (to which `main.rs` gives the
messages formatted at lines 184 and 215), and the `Option::unwrap` panic
(which the embedding makes explicit instead of aborting). -/
inductive RunError where
  | io (msg : String)
  | signerNotFound (query : String)
  | recipientNotFound (query : String)
  | panicUnwrap
deriving DecidableEq

/-- The user-facing message of a run error, as formatted in `main.rs`. -/
def RunError.message : RunError → String
  | .io m => m
  | .signerNotFound q => "Cannot find signer certificate for " ++ q
  | .recipientNotFound q => "Cannot find recipient certificate for " ++ q
  | .panicUnwrap => "called Option.unwrap on a None value"

/-- Observable events of a run, in the order they happen: a `set_pin`
call, the pipeline invocation (for encode, with the number of recipients
passed to the builder), and a write of the final data to the output
destination. -/
inductive Event where
  | setPin
  | signAndEncrypt (numRecipients : Nat)
  | decryptAndVerify
  | writeOutput (data : List Nat)
deriving DecidableEq

/-- Number of `setPin` events in a trace. -/
def countSetPin : List Event → Nat
  | [] => 0
  | Event.setPin :: rest => countSetPin rest + 1
  | _ :: rest => countSetPin rest

/-- Which store-opening call `main` performs (lines 133-142): decode a
PKCS12 blob with a password, or open an OS store by kind and logical
name. -/
inductive StoreSpec where
  | pkcs12 (data : List Nat) (password : String)
  | osStore (t : CertStoreType) (name : String)
deriving DecidableEq

/-- Store opening, translated from `main.rs` lines 133-142: with a PFX
path the file is read and `CertStore::from_pkcs12` is called with the PIN
(empty string if absent); otherwise `CertStore::open` with the store type
(default `CurrentUser`) and logical name `"my"`. -/
def openStore (env : Env) (args : AppParams) : Except String StoreSpec :=
  match args.pfx_file with
  | some path =>
    match env.readFile path with
    | .ok data => .ok (.pkcs12 data (args.pin.getD ""))
    | .error e => .error e
  | none => .ok (.osStore (args.store_type.getD .CurrentUser) "my")

/-- `get_cert_with_key` from `main.rs` lines 112-116: find-map over the
candidates, acquiring a key on each in turn; on the first success the
certificate (which now carries the acquired key) is returned. -/
def get_cert_with_key (acquire : CertContext → Bool → Except String NCryptKey) :
    List CertContext → Bool → Option CertContext
  | [], _ => none
  | cert :: rest, silent =>
    match acquire cert silent with
    | .ok k => some { cert with key := some k }
    | .error _ => get_cert_with_key acquire rest silent

/-- The candidates on which `get_cert_with_key`'s find-map actually
invokes `acquire_key`: every candidate up to and including the first
success (find-map stops there), or all of them if none succeeds. -/
def acquireAttempts (acquire : CertContext → Bool → Except String NCryptKey)
    (silent : Bool) : List CertContext → List CertContext
  | [] => []
  | cert :: rest =>
    match acquire cert silent with
    | .ok _ => [cert]
    | .error _ => cert :: acquireAttempts acquire silent rest

/-- The recipient-collection loop of the encode branch (lines 151-155):
`recipients.extend(store.find_cert_by_subject_str(rcpt)?)` over the
queries in order, propagating the first store error. -/
def collectRecipients (env : Env) : List String → Except RunError (List CertContext)
  | [] => .ok []
  | q :: rest =>
    match env.findCert q with
    | .error e => .error (.io e)
    | .ok cs =>
      match collectRecipients env rest with
      | .error e => .error e
      | .ok more => .ok (cs ++ more)

/-- The PIN-injection step shared by both branches (lines 162-167 and
198-203): only when no PFX file was given and a PIN was supplied is
`set_pin` called (recorded as an event even when the call fails, since it
was attempted). -/
def pinStep (env : Env) (args : AppParams) (key : NCryptKey) :
    Except RunError Unit × List Event :=
  if args.pfx_file.isNone then
    match args.pin with
    | some pin =>
      match env.setPin key pin with
      | .ok _ => (.ok (), [.setPin])
      | .error e => (.error (.io e), [.setPin])
    | none => (.ok (), [])
  else (.ok (), [])

/-- Tail of the encode branch (lines 169-180): build the content, run
`sign_and_encrypt`, and write the output only on success. -/
def encodeTail (env : Env) (signer : CertContext) (recipients : List CertContext)
    (source : List Nat) : Except RunError Unit × List Event :=
  match env.signAndEncrypt ⟨signer, recipients⟩ source with
  | .error e => (.error (.io e), [.signAndEncrypt recipients.length])
  | .ok data => (.ok (), [.signAndEncrypt recipients.length, .writeOutput data])

/-- The encode branch of `main` (lines 145-187), with the store open and
the message source already resolved. -/
def runEncode (env : Env) (args : AppParams) (cmd : CmsEncodeCmd) (source : List Nat) :
    Except RunError Unit × List Event :=
  match env.findCert cmd.signer with
  | .error e => (.error (.io e), [])
  | .ok signers =>
    match get_cert_with_key env.acquireKey signers args.silent with
    | none => (.error (.signerNotFound cmd.signer), [])
    | some signer =>
      match collectRecipients env cmd.recipients with
      | .error e => (.error e, [])
      | .ok recipients =>
        match signer.key with
        | none => (.error .panicUnwrap, [])
        | some key =>
          match env.getProviderName key with
          | .error e => (.error (.io e), [])
          | .ok _ =>
            match env.getKeyName key with
            | .error e => (.error (.io e), [])
            | .ok _ =>
              match pinStep env args key with
              | (.error e, evs) => (.error e, evs)
              | (.ok _, evs) =>
                ((encodeTail env signer recipients source).1,
                 evs ++ (encodeTail env signer recipients source).2)

/-- The decode branch of `main` (lines 188-218). -/
def runDecode (env : Env) (args : AppParams) (cmd : CmsDecodeCmd) (source : List Nat) :
    Except RunError Unit × List Event :=
  match env.findCert cmd.recipient with
  | .error e => (.error (.io e), [])
  | .ok recipients =>
    match get_cert_with_key env.acquireKey recipients args.silent with
    | none => (.error (.recipientNotFound cmd.recipient), [])
    | some cert =>
      match cert.key with
      | none => (.error .panicUnwrap, [])
      | some key =>
        match env.getProviderName key with
        | .error e => (.error (.io e), [])
        | .ok _ =>
          match env.getKeyName key with
          | .error e => (.error (.io e), [])
          | .ok _ =>
            match pinStep env args key with
            | (.error e, evs) => (.error e, evs)
            | (.ok _, evs) =>
              match env.decryptAndVerify source with
              | .error e => (.error (.io e), evs ++ [.decryptAndVerify])
              | .ok data => (.ok (), evs ++ [.decryptAndVerify, .writeOutput data])

namespace Cms

/-- Modelled from the spec: the CMS builder and pipeline live in the
external `wincms` library, so certificates here are the spec's data
model — a subject plus a key-pair identifier; holding the private key of
pair `keyId` is what lets a store unwrap content encrypted to it. -/
structure Cert where
  subject : String
  keyId : Nat
deriving DecidableEq

/-- Modelled from the spec: an entry of the decrypting party's store — a
certificate together with whether its private key is available there. -/
structure StoreEntry where
  cert : Cert
  hasPrivKey : Bool
deriving DecidableEq

/-- Modelled from the spec: a signature, symbolically the signing key
pair's identifier together with the signed message. -/
structure Signature where
  keyId : Nat
  message : List Nat
deriving DecidableEq

/-- Modelled from the spec: signing with the private key of pair
`keyId`. -/
def sign (keyId : Nat) (msg : List Nat) : Signature := ⟨keyId, msg⟩

/-- Modelled from the spec: verification succeeds exactly when the
signature was produced by the key pair of the embedded signer certificate
over exactly this message. -/
def verify (cert : Cert) (msg : List Nat) (s : Signature) : Bool :=
  s.keyId == cert.keyId && s.message == msg

/-- Modelled from the spec: the SignedData structure — payload, embedded
signer certificate, and signature over the payload. -/
structure SignedData where
  payload : List Nat
  signerCert : Cert
  signature : Signature
deriving DecidableEq

/-- Modelled from the spec: a content-encryption key wrapped under a
recipient's public key. -/
structure WrappedKey where
  underKeyId : Nat
  cek : Nat
deriving DecidableEq

/-- Modelled from the spec: wrapping the CEK under a public key. -/
def wrapKey (pubKeyId cek : Nat) : WrappedKey := ⟨pubKeyId, cek⟩

/-- Modelled from the spec: unwrapping needs the matching private key. -/
def unwrapKey (privKeyId : Nat) (w : WrappedKey) : Option Nat :=
  if w.underKeyId = privKeyId then some w.cek else none

/-- Modelled from the spec: one `RecipientInfo` per recipient — the
recipient identifier and the CEK wrapped under that recipient's key. -/
structure RecipientInfo where
  recipId : Nat
  wrapped : WrappedKey
deriving DecidableEq

/-- Modelled from the spec: the SignedData symmetrically encrypted under
the CEK. -/
structure EncryptedContent where
  underCek : Nat
  plain : SignedData
deriving DecidableEq

/-- Modelled from the spec: symmetric encryption under the CEK. -/
def symEncrypt (cek : Nat) (sd : SignedData) : EncryptedContent := ⟨cek, sd⟩

/-- Modelled from the spec: symmetric decryption succeeds only with the
same CEK. -/
def symDecrypt (cek : Nat) (c : EncryptedContent) : Option SignedData :=
  if c.underCek = cek then some c.plain else none

/-- Modelled from the spec: the EnvelopedData structure — one
`RecipientInfo` per recipient plus the encrypted content. -/
structure EnvelopedData where
  recipientInfos : List RecipientInfo
  content : EncryptedContent
deriving DecidableEq

/-- Modelled from the spec: `build()` failure kinds. -/
inductive BuildError where
  | MissingSigner
  | NoRecipients
deriving DecidableEq

/-- Modelled from the spec: pipeline failure kinds relevant here. -/
inductive CmsError where
  | DecryptionError
  | VerificationError
deriving DecidableEq

/-- Modelled from the spec: the immutable built context — exactly one
signer (certificate plus private-key identifier) and the recipient
certificates. -/
structure CmsContentContext where
  signerCert : Cert
  signerKeyId : Nat
  recipients : List Cert
deriving DecidableEq

/-- Modelled from the spec: the mutable accumulation object produced by
`builder()`. -/
structure Builder where
  signerOpt : Option (Cert × Nat)
  recipientList : List Cert
deriving DecidableEq

/-- Modelled from the spec: `builder()` starts with no signer and no
recipients. -/
def builder : Builder := ⟨none, []⟩

/-- Modelled from the spec: records exactly one signer identity,
last-write-wins. -/
def Builder.signer (b : Builder) (c : Cert) (keyId : Nat) : Builder :=
  { b with signerOpt := some (c, keyId) }

/-- Modelled from the spec: records the recipient set (replace policy). -/
def Builder.recipients (b : Builder) (rs : List Cert) : Builder :=
  { b with recipientList := rs }

/-- Modelled from the spec: `build()` fails with `MissingSigner` if no
signer was set, `NoRecipients` if the recipient set is empty, and
otherwise succeeds with the immutable context. -/
def Builder.build (b : Builder) : Except BuildError CmsContentContext :=
  match b.signerOpt with
  | none => .error .MissingSigner
  | some sk =>
    if b.recipientList.isEmpty then .error .NoRecipients
    else .ok ⟨sk.1, sk.2, b.recipientList⟩

/-- Modelled from the spec: sign THEN encrypt — a signature over the
plaintext is embedded in a SignedData, which is encrypted under a fresh
CEK (passed in as `cek`, freshness being external nondeterminism), the
CEK being wrapped once per recipient. -/
def signAndEncrypt (ctx : CmsContentContext) (cek : Nat) (msg : List Nat) :
    EnvelopedData :=
  { recipientInfos := ctx.recipients.map fun r => ⟨r.keyId, wrapKey r.keyId cek⟩,
    content := symEncrypt cek ⟨msg, ctx.signerCert, sign ctx.signerKeyId msg⟩ }

/-- Modelled from the spec: whether the store holds the private key for a
recipient identifier. -/
def storeFindKey (store : List StoreEntry) (recipId : Nat) : Bool :=
  store.any fun e => e.hasPrivKey && e.cert.keyId == recipId

/-- Modelled from the spec: locate a `RecipientInfo` whose identifier
matches a private key available in the store, unwrap the CEK, decrypt the
SignedData, verify the signature against the embedded certificate and
return the payload only on success. -/
def decryptAndVerify (store : List StoreEntry) (ed : EnvelopedData) :
    Except CmsError (List Nat) :=
  match ed.recipientInfos.find? (fun ri => storeFindKey store ri.recipId) with
  | none => .error .DecryptionError
  | some ri =>
    match unwrapKey ri.recipId ri.wrapped with
    | none => .error .DecryptionError
    | some cek =>
      match symDecrypt cek ed.content with
      | none => .error .DecryptionError
      | some sd =>
        if verify sd.signerCert sd.payload sd.signature then .ok sd.payload
        else .error .VerificationError

end Cms

/-! ## Concrete test fixtures

A concrete environment and parameter values used to evaluate the
definitions on closed inputs. -/

/-- A concrete key handle. -/
def kW : NCryptKey := ⟨"TestProvider", "TestKey"⟩

/-- A candidate whose key acquisition fails. -/
def certBad1 : CertContext := ⟨"bad1", none⟩

/-- The candidate whose key acquisition succeeds. -/
def certGood : CertContext := ⟨"good", none⟩

/-- A later candidate that must not be attempted. -/
def certBad2 : CertContext := ⟨"bad2", none⟩

/-- First certificate matching the query `"Bob"`. -/
def certBob1 : CertContext := ⟨"Bob One", none⟩

/-- Second certificate matching the query `"Bob"`. -/
def certBob2 : CertContext := ⟨"Bob Two", none⟩

/-- The certificate matching the query `"Carol"`. -/
def certCarol : CertContext := ⟨"Carol", none⟩

/-- Concrete acquisition oracle: only the `"good"` certificate has a
usable key. -/
def acqW : CertContext → Bool → Except String NCryptKey := fun c _ =>
  if c.subject = "good" then .ok kW else .error "key not available"

/-- Concrete store query: `"good"` matches three candidates (with the
usable one in the middle), `"Bob"` two, `"Carol"` one, anything else
zero. -/
def findW : String → Except String (List CertContext) := fun q =>
  if q = "good" then .ok [certBad1, certGood, certBad2]
  else if q = "Bob" then .ok [certBob1, certBob2]
  else if q = "Carol" then .ok [certCarol]
  else .ok []

/-- The per-query match lists of `findW`, as a pure function. -/
def fW : String → List CertContext := fun q =>
  if q = "Bob" then [certBob1, certBob2]
  else if q = "Carol" then [certCarol]
  else []

/-- Concrete environment in which every collaborator call succeeds. -/
def envW : Env :=
  { findCert := findW
    acquireKey := acqW
    getProviderName := fun _ => .ok "TestProvider"
    getKeyName := fun _ => .ok "TestKey"
    setPin := fun _ _ => .ok ()
    signAndEncrypt := fun _ src => .ok (0 :: src)
    decryptAndVerify := fun src => .ok src
    readFile := fun _ => .ok [1, 2, 3] }

/-- Parameters: no PIN, no PFX file. -/
def argsPlain : AppParams := ⟨none, false, none, none⟩

/-- Parameters: a PIN and no PFX file. -/
def argsPin : AppParams := ⟨some "1234", false, none, none⟩

/-- Parameters: a PIN together with a PFX file. -/
def argsPfx : AppParams := ⟨some "1234", false, none, some "store.pfx"⟩

/-- Encode command: signer `"good"`, recipients `"Bob"` and `"Carol"`. -/
def cmdW : CmsEncodeCmd := ⟨"good", ["Bob", "Carol"]⟩

/-- Encode command whose signer query matches nothing. -/
def cmdMissing : CmsEncodeCmd := ⟨"nobody", ["Bob"]⟩

/-- Encode command whose sole recipient query matches nothing. -/
def cmdEmptyR : CmsEncodeCmd := ⟨"good", ["Zed"]⟩

/-- Decode command: recipient `"good"`. -/
def dcmdW : CmsDecodeCmd := ⟨"good"⟩

/-- Decode command whose recipient query matches nothing. -/
def dcmdMissing : CmsDecodeCmd := ⟨"nobody"⟩

/-- A concrete message. -/
def srcW : List Nat := [10, 20]

/-- Concrete spec-model signer certificate (key pair 1). -/
def certS : Cms.Cert := ⟨"Signer", 1⟩

/-- Concrete spec-model recipient certificate (key pair 2). -/
def certR1 : Cms.Cert := ⟨"Recipient One", 2⟩

/-- Concrete spec-model recipient certificate (key pair 3). -/
def certR2 : Cms.Cert := ⟨"Recipient Two", 3⟩

/-- Concrete decrypting store: it holds the private key of `certR1` but
not of `certR2`. -/
def storeW : List Cms.StoreEntry := [⟨certR2, false⟩, ⟨certR1, true⟩]

/-! ## Helper lemmas -/

/-- A certificate returned by `get_cert_with_key` carries a key. -/
lemma getCertKeyIsSome (acquire : CertContext → Bool → Except String NCryptKey)
    (certs : List CertContext) (silent : Bool) (c : CertContext)
    (h : get_cert_with_key acquire certs silent = some c) :
    ∃ k, c.key = some k := by
  induction certs with
  | nil => simp [get_cert_with_key] at h
  | cons a rest ih =>
    rw [get_cert_with_key] at h
    cases hacq : acquire a silent with
    | ok k =>
      rw [hacq] at h
      simp only [Option.some.injEq] at h
      exact ⟨k, by rw [← h]⟩
    | error e =>
      rw [hacq] at h
      exact ih h

/-- `collectRecipients` only fails with a propagated store error. -/
lemma collectRecipients_error_io (env : Env) (qs : List String) (e : RunError)
    (h : collectRecipients env qs = .error e) : ∃ m, e = RunError.io m := by
  induction qs with
  | nil => simp [collectRecipients] at h
  | cons q rest ih =>
    rw [collectRecipients] at h
    cases hq : env.findCert q with
    | error m =>
      rw [hq] at h
      simp only [Except.error.injEq] at h
      exact ⟨m, h.symm⟩
    | ok cs =>
      rw [hq] at h
      cases hrest : collectRecipients env rest with
      | error e2 =>
        rw [hrest] at h
        simp only [Except.error.injEq] at h
        subst h
        exact ih hrest
      | ok more =>
        rw [hrest] at h
        simp at h

/-- When every recipient query succeeds, `collectRecipients` returns the
concatenation of the per-query match lists, in query order. -/
lemma collectRecipients_flatten (env : Env) (qs : List String)
    (f : String → List CertContext)
    (hf : ∀ q ∈ qs, env.findCert q = .ok (f q)) :
    collectRecipients env qs = .ok (qs.flatMap f) := by
  induction qs with
  | nil => simp [collectRecipients]
  | cons q rest ih =>
    have hq : env.findCert q = .ok (f q) := hf q (by simp)
    have hrest := ih fun r hr => hf r (by simp [hr])
    rw [collectRecipients, hq, hrest]
    simp

/-- Concatenating empty per-query match lists yields no recipients. -/
lemma flatMap_const_nil (qs : List String) :
    qs.flatMap (fun _ => ([] : List CertContext)) = [] := by
  induction qs with
  | nil => rfl
  | cons q rest ih => simp [ih]

/-- A PFX-backed store makes `pinStep` a no-op. -/
lemma pinStep_pfxSome (env : Env) (args : AppParams) (key : NCryptKey)
    (h : args.pfx_file.isSome = true) : pinStep env args key = (.ok (), []) := by
  have hn : args.pfx_file.isNone = false := by
    cases hp : args.pfx_file <;> simp [hp] at h ⊢
  simp [pinStep, hn]

/-- Without a supplied PIN, `pinStep` is a no-op. -/
lemma pinStep_noPin (env : Env) (args : AppParams) (key : NCryptKey)
    (h : args.pin = none) : pinStep env args key = (.ok (), []) := by
  unfold pinStep
  rw [h]
  cases args.pfx_file <;> simp

/-- A `pinStep` trace is empty or a single `setPin` event. -/
lemma pinStep_trace (env : Env) (args : AppParams) (key : NCryptKey) :
    (pinStep env args key).2 = [] ∨ (pinStep env args key).2 = [Event.setPin] := by
  unfold pinStep
  cases args.pfx_file with
  | some p => simp
  | none =>
    cases args.pin with
    | none => simp
    | some pin =>
      cases hs : env.setPin key pin with
      | error e => simp [hs]
      | ok u => simp [hs]

/-- With no PFX store and a supplied PIN, `pinStep` attempts `set_pin`
exactly once (whether or not the call succeeds). -/
lemma pinStep_pinSome (env : Env) (args : AppParams) (key : NCryptKey) (p : String)
    (hpfx : args.pfx_file = none) (hp : args.pin = some p) :
    (pinStep env args key).2 = [Event.setPin] := by
  unfold pinStep
  rw [hpfx, hp]
  cases hs : env.setPin key p with
  | error e => simp [hs]
  | ok u => simp [hs]

/-- A failing `pinStep` fails with a propagated collaborator error. -/
lemma pinStep_error_io (env : Env) (args : AppParams) (key : NCryptKey) (e : RunError)
    (h : (pinStep env args key).1 = .error e) : ∃ m, e = RunError.io m := by
  unfold pinStep at h
  split at h
  · split at h
    · split at h
      · simp at h
      · next m hs =>
        simp at h
        first
        | exact ⟨m, h⟩
        | exact ⟨m, h.symm⟩
    · simp at h
  · simp at h

/-- `countSetPin` distributes over concatenation. -/
lemma countSetPin_append (a b : List Event) :
    countSetPin (a ++ b) = countSetPin a + countSetPin b := by
  induction a with
  | nil => simp [countSetPin]
  | cons x rest ih =>
    cases x with
    | setPin => simp [countSetPin, ih]; omega
    | signAndEncrypt n => simp [countSetPin, ih]
    | decryptAndVerify => simp [countSetPin, ih]
    | writeOutput d => simp [countSetPin, ih]

/-- The two possible outcomes of the encode tail: on pipeline success the
trace is the pipeline event followed by the output write; on failure it is
the pipeline event alone and the error is propagated. -/
lemma encodeTail_result (env : Env) (s : CertContext) (r : List CertContext)
    (source : List Nat) :
    ((encodeTail env s r source).1 = .ok ()
      ∧ ∃ d, env.signAndEncrypt ⟨s, r⟩ source = .ok d
        ∧ (encodeTail env s r source).2
            = [Event.signAndEncrypt r.length, Event.writeOutput d])
    ∨ (∃ m, env.signAndEncrypt ⟨s, r⟩ source = .error m
        ∧ (encodeTail env s r source).1 = .error (.io m)
        ∧ (encodeTail env s r source).2 = [Event.signAndEncrypt r.length]) := by
  unfold encodeTail
  cases hs : env.signAndEncrypt ⟨s, r⟩ source with
  | error m => exact Or.inr ⟨m, rfl, rfl, rfl⟩
  | ok d => exact Or.inl ⟨rfl, d, rfl, rfl⟩

/-- Case analysis on an encode run: a propagated collaborator error with
an empty trace, the signer-identity error with an empty trace, a failing
PIN step, or a successful PIN step followed by the encode tail. -/
lemma runEncode_structure (env : Env) (args : AppParams) (cmd : CmsEncodeCmd)
    (source : List Nat) :
    (∃ e, runEncode env args cmd source = (.error (.io e), []))
    ∨ (runEncode env args cmd source = (.error (.signerNotFound cmd.signer), [])
        ∧ ∃ l, env.findCert cmd.signer = .ok l
            ∧ get_cert_with_key env.acquireKey l args.silent = none)
    ∨ (∃ key e, runEncode env args cmd source = (.error (.io e), (pinStep env args key).2)
        ∧ (pinStep env args key).1 = .error (.io e))
    ∨ (∃ key signer recipients,
        (pinStep env args key).1 = .ok ()
        ∧ runEncode env args cmd source
            = ((encodeTail env signer recipients source).1,
               (pinStep env args key).2 ++ (encodeTail env signer recipients source).2)) := by
  unfold runEncode
  split
  next e heq1 => exact Or.inl ⟨e, rfl⟩
  next signers heq1 =>
    split
    next heq2 => exact Or.inr (Or.inl ⟨rfl, signers, heq1, heq2⟩)
    next signer heq2 =>
      split
      next e heq3 =>
        obtain ⟨m, hm⟩ := collectRecipients_error_io env cmd.recipients e heq3
        subst hm
        exact Or.inl ⟨m, rfl⟩
      next recipients heq3 =>
        split
        next heqk =>
          obtain ⟨k, hk⟩ := getCertKeyIsSome env.acquireKey signers args.silent signer heq2
          rw [heqk] at hk
          simp at hk
        next key heqk =>
          split
          next e heq4 => exact Or.inl ⟨e, rfl⟩
          next pv heq4 =>
            split
            next e heq5 => exact Or.inl ⟨e, rfl⟩
            next nm heq5 =>
              split
              next e evs heq6 =>
                obtain ⟨m, hm⟩ := pinStep_error_io env args key e (by rw [heq6])
                subst hm
                exact Or.inr (Or.inr (Or.inl ⟨key, m, by rw [heq6], by rw [heq6]⟩))
              next u evs heq6 =>
                exact Or.inr (Or.inr (Or.inr ⟨key, signer, recipients,
                  by rw [heq6], by rw [heq6]⟩))

/-- Case analysis on a decode run, analogous to `runEncode_structure`. -/
lemma runDecode_structure (env : Env) (args : AppParams) (cmd : CmsDecodeCmd)
    (source : List Nat) :
    (∃ e, runDecode env args cmd source = (.error (.io e), []))
    ∨ (runDecode env args cmd source = (.error (.recipientNotFound cmd.recipient), [])
        ∧ ∃ l, env.findCert cmd.recipient = .ok l
            ∧ get_cert_with_key env.acquireKey l args.silent = none)
    ∨ (∃ key e, runDecode env args cmd source = (.error (.io e), (pinStep env args key).2)
        ∧ (pinStep env args key).1 = .error (.io e))
    ∨ (∃ key, (pinStep env args key).1 = .ok ()
        ∧ ((∃ m, env.decryptAndVerify source = .error m
              ∧ runDecode env args cmd source
                  = (.error (.io m), (pinStep env args key).2 ++ [Event.decryptAndVerify]))
           ∨ (∃ d, env.decryptAndVerify source = .ok d
              ∧ runDecode env args cmd source
                  = (.ok (), (pinStep env args key).2
                      ++ [Event.decryptAndVerify, Event.writeOutput d])))) := by
  unfold runDecode
  split
  next e heq1 => exact Or.inl ⟨e, rfl⟩
  next recipients heq1 =>
    split
    next heq2 => exact Or.inr (Or.inl ⟨rfl, recipients, heq1, heq2⟩)
    next cert heq2 =>
      split
      next heqk =>
        obtain ⟨k, hk⟩ := getCertKeyIsSome env.acquireKey recipients args.silent cert heq2
        rw [heqk] at hk
        simp at hk
      next key heqk =>
        split
        next e heq4 => exact Or.inl ⟨e, rfl⟩
        next pv heq4 =>
          split
          next e heq5 => exact Or.inl ⟨e, rfl⟩
          next nm heq5 =>
            split
            next e evs heq6 =>
              obtain ⟨m, hm⟩ := pinStep_error_io env args key e (by rw [heq6])
              subst hm
              exact Or.inr (Or.inr (Or.inl ⟨key, m, by rw [heq6], by rw [heq6]⟩))
            next u evs heq6 =>
              split
              next m heq7 =>
                exact Or.inr (Or.inr (Or.inr ⟨key, by rw [heq6],
                  Or.inl ⟨m, heq7, by rw [heq6]⟩⟩))
              next d heq7 =>
                exact Or.inr (Or.inr (Or.inr ⟨key, by rw [heq6],
                  Or.inr ⟨d, heq7, by rw [heq6]⟩⟩))

/-! ## Claim theorems -/

/-- Claim C1: for every ordered sequence of candidate certificates and
every silent flag, `get_cert_with_key` iterates the candidates in order,
attempts key acquisition on each, returns the first candidate for which
acquisition succeeds paired with its acquired key, does not attempt any
candidate after the first success, and returns `none` if acquisition fails
for every candidate. -/
theorem get_cert_with_key_first_success
    (acquire : CertContext → Bool → Except String NCryptKey) (silent : Bool)
    (pre post : List CertContext) (c : CertContext) (k : NCryptKey)
    (hpre : ∀ c' ∈ pre, ∃ e, acquire c' silent = .error e)
    (hc : acquire c silent = .ok k) :
    get_cert_with_key acquire (pre ++ c :: post) silent
        = some { c with key := some k }
    ∧ acquireAttempts acquire silent (pre ++ c :: post) = pre ++ [c]
    ∧ ∀ certs : List CertContext,
        (∀ c' ∈ certs, ∃ e, acquire c' silent = .error e) →
        get_cert_with_key acquire certs silent = none := by
  refine ⟨?_, ?_, ?_⟩
  · induction pre with
    | nil => simp [get_cert_with_key, hc]
    | cons a as ih =>
      obtain ⟨e, he⟩ := hpre a (by simp)
      simp only [List.cons_append, get_cert_with_key, he]
      exact ih fun c' hm => hpre c' (by simp [hm])
  · induction pre with
    | nil => simp [acquireAttempts, hc]
    | cons a as ih =>
      obtain ⟨e, he⟩ := hpre a (by simp)
      simp only [List.cons_append, acquireAttempts, he]
      exact congrArg (List.cons a) (ih fun c' hm => hpre c' (by simp [hm]))
  · intro certs hall
    induction certs with
    | nil => rfl
    | cons a as ih =>
      obtain ⟨e, he⟩ := hall a (by simp)
      simp only [get_cert_with_key, he]
      exact ih fun c' hm => hall c' (by simp [hm])

/-- Witness for C1 at a concrete input: with the usable candidate in the
middle position, it is returned with its key and the last candidate is
never attempted. -/
theorem get_cert_with_key_first_success_witness :
    get_cert_with_key acqW [certBad1, certGood, certBad2] false
        = some { certGood with key := some kW }
    ∧ acquireAttempts acqW false [certBad1, certGood, certBad2]
        = [certBad1, certGood] := by
  have h := get_cert_with_key_first_success acqW false [certBad1] [certBad2] certGood kW
    (by
      intro c' hm
      simp only [List.mem_singleton] at hm
      subst hm
      exact ⟨"key not available", rfl⟩)
    rfl
  exact ⟨h.1, h.2.1⟩

/-- Claim C9: whenever `get_cert_with_key` returns a certificate, the
returned certificate carries an acquired private key (`key` is `some`),
so the `key().unwrap()` calls in the encode and decode paths never
panic. -/
theorem get_cert_with_key_no_panic
    (acquire : CertContext → Bool → Except String NCryptKey)
    (certs : List CertContext) (silent : Bool) (c : CertContext)
    (h : get_cert_with_key acquire certs silent = some c) :
    c.key.isSome = true
    ∧ ∀ (env : Env) (args : AppParams) (ecmd : CmsEncodeCmd) (dcmd : CmsDecodeCmd)
        (source : List Nat),
        (runEncode env args ecmd source).1 ≠ .error RunError.panicUnwrap
        ∧ (runDecode env args dcmd source).1 ≠ .error RunError.panicUnwrap := by
  constructor
  · obtain ⟨k, hk⟩ := getCertKeyIsSome acquire certs silent c h
    simp [hk]
  · intro env args ecmd dcmd source
    constructor
    · rcases runEncode_structure env args ecmd source with
        ⟨e, he⟩ | ⟨he, -⟩ | ⟨key, e, he, -⟩ | ⟨key, signer, recipients, hp, he⟩
      · simp [he]
      · simp [he]
      · simp [he]
      · rcases encodeTail_result env signer recipients source with
          ⟨h1, -⟩ | ⟨m, -, h1, -⟩ <;> simp [he, h1]
    · rcases runDecode_structure env args dcmd source with
        ⟨e, he⟩ | ⟨he, -⟩ | ⟨key, e, he, -⟩ |
        ⟨key, hp, ⟨m, hm, he⟩ | ⟨d, hd, he⟩⟩ <;> simp [he]

/-- Witness for C9 at a concrete input. -/
theorem get_cert_with_key_no_panic_witness :
    ({ certGood with key := some kW } : CertContext).key.isSome = true
    ∧ (runEncode envW argsPlain cmdW srcW).1 ≠ .error RunError.panicUnwrap := by
  have h := get_cert_with_key_no_panic acqW [certBad1, certGood, certBad2] false
    { certGood with key := some kW } rfl
  exact ⟨h.1, (h.2 envW argsPlain cmdW dcmdW srcW).1⟩

/-- Claim C3: the recipient set passed to the builder is the
concatenation, in query order then store-enumeration order, of every
certificate matching each recipient query — multiple certificates
matching one query are all included as separate recipients, with no
deduplication and no first-usable-key filtering. -/
theorem recipients_concatenation (env : Env) (qs : List String)
    (f : String → List CertContext)
    (hf : ∀ q ∈ qs, env.findCert q = .ok (f q)) :
    collectRecipients env qs = .ok (qs.flatMap f) :=
  collectRecipients_flatten env qs f hf

/-- Witness for C3: the queries `["Bob", "Carol"]`, matching two and one
certificates respectively, yield exactly the three recipients. -/
theorem recipients_concatenation_witness :
    collectRecipients envW ["Bob", "Carol"] = .ok [certBob1, certBob2, certCarol]
    ∧ ([certBob1, certBob2, certCarol] : List CertContext).length = 3 := by
  have hf : ∀ q ∈ ["Bob", "Carol"], envW.findCert q = .ok (fW q) := by
    intro q hq
    simp only [List.mem_cons, List.not_mem_nil, or_false] at hq
    rcases hq with h | h <;> subst h <;> rfl
  exact ⟨(recipients_concatenation envW ["Bob", "Carol"] fW hf).trans rfl, rfl⟩

/-- Claim C8: with no PFX path and no store kind, `main` opens the
current-user store with logical name `"my"`; with a PFX path, the store is
decoded from the PFX bytes with the supplied password, the empty string
standing in when no password was given. -/
theorem store_opening (env : Env) (args : AppParams) :
    (args.pfx_file = none → args.store_type = none →
        openStore env args = .ok (.osStore CertStoreType.CurrentUser "my"))
    ∧ (∀ path data, args.pfx_file = some path → env.readFile path = .ok data →
        openStore env args = .ok (.pkcs12 data (args.pin.getD "")))
    ∧ (∀ path data, args.pfx_file = some path → args.pin = none →
        env.readFile path = .ok data →
        openStore env args = .ok (.pkcs12 data "")) := by
  refine ⟨?_, ?_, ?_⟩
  · intro h1 h2
    simp [openStore, h1, h2]
  · intro path data h1 h2
    simp [openStore, h1, h2]
  · intro path data h1 hp h2
    simp [openStore, h1, h2, hp]

/-- Witness for C8 at concrete inputs. -/
theorem store_opening_witness :
    openStore envW argsPlain = .ok (.osStore CertStoreType.CurrentUser "my")
    ∧ openStore envW argsPfx = .ok (.pkcs12 [1, 2, 3] "1234") :=
  ⟨(store_opening envW argsPlain).1 rfl rfl,
   (store_opening envW argsPfx).2.1 "store.pfx" [1, 2, 3] rfl rfl⟩

/-- Claim C4: for every invocation (encode or decode), `set_pin` is never
attempted when the store is PFX-derived; when the store is not PFX-derived
and a PIN was supplied, `set_pin` is applied to the acquired key exactly
once, before the pipeline operation runs. -/
theorem pin_injection_policy (env : Env) (args : AppParams) (ecmd : CmsEncodeCmd)
    (dcmd : CmsDecodeCmd) (source : List Nat) :
    (args.pfx_file.isSome = true →
        countSetPin (runEncode env args ecmd source).2 = 0
        ∧ countSetPin (runDecode env args dcmd source).2 = 0)
    ∧ (args.pfx_file = none → ∀ p, args.pin = some p →
        ((∃ n, Event.signAndEncrypt n ∈ (runEncode env args ecmd source).2) →
            ∃ t, (runEncode env args ecmd source).2 = Event.setPin :: t
              ∧ countSetPin t = 0)
        ∧ (Event.decryptAndVerify ∈ (runDecode env args dcmd source).2 →
            ∃ t, (runDecode env args dcmd source).2 = Event.setPin :: t
              ∧ countSetPin t = 0)) := by
  constructor
  · intro hpfx
    constructor
    · rcases runEncode_structure env args ecmd source with
        ⟨e, he⟩ | ⟨he, -⟩ | ⟨key, e, he, -⟩ | ⟨key, signer, recipients, hp, he⟩
      · simp [he, countSetPin]
      · simp [he, countSetPin]
      · simp [he, pinStep_pfxSome env args key hpfx, countSetPin]
      · rcases encodeTail_result env signer recipients source with
          ⟨-, d, -, h2⟩ | ⟨m, -, -, h2⟩ <;>
          simp [he, pinStep_pfxSome env args key hpfx, countSetPin_append, h2,
            countSetPin]
    · rcases runDecode_structure env args dcmd source with
        ⟨e, he⟩ | ⟨he, -⟩ | ⟨key, e, he, -⟩ |
        ⟨key, hp, ⟨m, hm, he⟩ | ⟨d, hd, he⟩⟩
      · simp [he, countSetPin]
      · simp [he, countSetPin]
      · simp [he, pinStep_pfxSome env args key hpfx, countSetPin]
      · simp [he, pinStep_pfxSome env args key hpfx, countSetPin_append, countSetPin]
      · simp [he, pinStep_pfxSome env args key hpfx, countSetPin_append, countSetPin]
  · intro hpfx p hp
    constructor
    · rintro ⟨n, hn⟩
      rcases runEncode_structure env args ecmd source with
        ⟨e, he⟩ | ⟨he, -⟩ | ⟨key, e, he, -⟩ | ⟨key, signer, recipients, hps, he⟩
      · rw [he] at hn
        simp at hn
      · rw [he] at hn
        simp at hn
      · rw [he, pinStep_pinSome env args key p hpfx hp] at hn
        simp at hn
      · refine ⟨(encodeTail env signer recipients source).2, ?_, ?_⟩
        · rw [he]
          simp [pinStep_pinSome env args key p hpfx hp]
        · rcases encodeTail_result env signer recipients source with
            ⟨-, d, -, h2⟩ | ⟨m, -, -, h2⟩ <;> simp [h2, countSetPin]
    · intro hn
      rcases runDecode_structure env args dcmd source with
        ⟨e, he⟩ | ⟨he, -⟩ | ⟨key, e, he, -⟩ |
        ⟨key, hps, ⟨m, hm, he⟩ | ⟨d, hd, he⟩⟩
      · rw [he] at hn
        simp at hn
      · rw [he] at hn
        simp at hn
      · rw [he, pinStep_pinSome env args key p hpfx hp] at hn
        simp at hn
      · exact ⟨[Event.decryptAndVerify], by
          rw [he]
          simp [pinStep_pinSome env args key p hpfx hp], rfl⟩
      · exact ⟨[Event.decryptAndVerify, Event.writeOutput d], by
          rw [he]
          simp [pinStep_pinSome env args key p hpfx hp], rfl⟩

/-- Witness for C4: a PFX run performs no `set_pin`; a non-PFX run with a
PIN performs it once, first. -/
theorem pin_injection_policy_witness :
    countSetPin (runEncode envW argsPfx cmdW srcW).2 = 0
    ∧ countSetPin (runEncode envW argsPin cmdW srcW).2 = 1 := by
  obtain ⟨t, h1, h2⟩ :=
    ((pin_injection_policy envW argsPin cmdW dcmdW srcW).2 rfl "1234" rfl).1
      ⟨3, by decide⟩
  refine ⟨((pin_injection_policy envW argsPfx cmdW dcmdW srcW).1 rfl).1, ?_⟩
  rw [h1]
  simp [countSetPin, h2]

/-- Claim C6: for the signer (encode) and recipient (decode) query, the
two failure cases — zero matching certificates, and matches but no usable
private key — are collapsed into the single user-facing error naming the
original query string, produced exactly when `get_cert_with_key` comes up
empty on the query's matches. -/
theorem identity_error_collapse (env : Env) (args : AppParams) (ecmd : CmsEncodeCmd)
    (dcmd : CmsDecodeCmd) (source : List Nat) (l ld : List CertContext)
    (hs : env.findCert ecmd.signer = .ok l)
    (hd : env.findCert dcmd.recipient = .ok ld) :
    ((runEncode env args ecmd source).1 = .error (.signerNotFound ecmd.signer)
        ↔ get_cert_with_key env.acquireKey l args.silent = none)
    ∧ ((runDecode env args dcmd source).1 = .error (.recipientNotFound dcmd.recipient)
        ↔ get_cert_with_key env.acquireKey ld args.silent = none)
    ∧ RunError.message (.signerNotFound ecmd.signer)
        = "Cannot find signer certificate for " ++ ecmd.signer
    ∧ RunError.message (.recipientNotFound dcmd.recipient)
        = "Cannot find recipient certificate for " ++ dcmd.recipient := by
  refine ⟨⟨?_, ?_⟩, ⟨?_, ?_⟩, rfl, rfl⟩
  · intro hres
    rcases runEncode_structure env args ecmd source with
      ⟨e, he⟩ | ⟨he, l2, hf2, hg2⟩ | ⟨key, e, he, -⟩ | ⟨key, signer, recipients, hp, he⟩
    · rw [he] at hres
      simp at hres
    · rw [hs] at hf2
      simp only [Except.ok.injEq] at hf2
      subst hf2
      exact hg2
    · rw [he] at hres
      simp at hres
    · rcases encodeTail_result env signer recipients source with
        ⟨h1, -⟩ | ⟨m, -, h1, -⟩ <;> rw [he] at hres <;> simp [h1] at hres
  · intro hnone
    simp [runEncode, hs, hnone]
  · intro hres
    rcases runDecode_structure env args dcmd source with
      ⟨e, he⟩ | ⟨he, l2, hf2, hg2⟩ | ⟨key, e, he, -⟩ |
      ⟨key, hp, ⟨m, hm, he⟩ | ⟨d, hdd, he⟩⟩
    · rw [he] at hres
      simp at hres
    · rw [hd] at hf2
      simp only [Except.ok.injEq] at hf2
      subst hf2
      exact hg2
    · rw [he] at hres
      simp at hres
    · rw [he] at hres
      simp at hres
    · rw [he] at hres
      simp at hres
  · intro hnone
    simp [runDecode, hd, hnone]

/-- Witness for C6: a signer query matching zero certificates produces
exactly the collapsed identity error naming the query. -/
theorem identity_error_collapse_witness :
    (runEncode envW argsPlain cmdMissing srcW).1
        = .error (.signerNotFound "nobody")
    ∧ RunError.message (.signerNotFound "nobody")
        = "Cannot find signer certificate for " ++ "nobody" := by
  have h := identity_error_collapse envW argsPlain cmdMissing dcmdMissing srcW
    [] [] rfl rfl
  exact ⟨h.1.mpr rfl, h.2.2.1⟩

/-- Claim C7: if the pipeline transform fails, nothing is written to the
output destination — a write event occurs only in runs whose result is
success, and only after the pipeline event. -/
theorem no_partial_output (env : Env) (args : AppParams) (ecmd : CmsEncodeCmd)
    (dcmd : CmsDecodeCmd) (source : List Nat) :
    (∀ d, Event.writeOutput d ∈ (runEncode env args ecmd source).2 →
        (runEncode env args ecmd source).1 = .ok ()
        ∧ ∃ evs n, (runEncode env args ecmd source).2
            = evs ++ [Event.signAndEncrypt n, Event.writeOutput d])
    ∧ (∀ d, Event.writeOutput d ∈ (runDecode env args dcmd source).2 →
        (runDecode env args dcmd source).1 = .ok ()
        ∧ ∃ evs, (runDecode env args dcmd source).2
            = evs ++ [Event.decryptAndVerify, Event.writeOutput d]) := by
  constructor
  · intro d hd
    rcases runEncode_structure env args ecmd source with
      ⟨e, he⟩ | ⟨he, -⟩ | ⟨key, e, he, -⟩ | ⟨key, signer, recipients, hp, he⟩
    · rw [he] at hd
      simp at hd
    · rw [he] at hd
      simp at hd
    · rcases pinStep_trace env args key with h2 | h2 <;>
        rw [he, h2] at hd <;> simp at hd
    · rw [he] at hd
      simp only [List.mem_append] at hd
      rcases hd with hd | hd
      · rcases pinStep_trace env args key with h2 | h2 <;> rw [h2] at hd <;> simp at hd
      · rcases encodeTail_result env signer recipients source with
          ⟨h1, d2, -, h2⟩ | ⟨m, -, -, h2⟩
        · rw [h2] at hd
          simp at hd
          subst hd
          refine ⟨by simp [he, h1], (pinStep env args key).2, recipients.length, ?_⟩
          rw [he, h2]
        · rw [h2] at hd
          simp at hd
  · intro d hd
    rcases runDecode_structure env args dcmd source with
      ⟨e, he⟩ | ⟨he, -⟩ | ⟨key, e, he, -⟩ |
      ⟨key, hp, ⟨m, hm, he⟩ | ⟨d2, hd2, he⟩⟩
    · rw [he] at hd
      simp at hd
    · rw [he] at hd
      simp at hd
    · rcases pinStep_trace env args key with h2 | h2 <;>
        rw [he, h2] at hd <;> simp at hd
    · rw [he] at hd
      rcases pinStep_trace env args key with h2 | h2 <;> rw [h2] at hd <;> simp at hd
    · rw [he] at hd
      rcases pinStep_trace env args key with h2 | h2 <;> rw [h2] at hd <;> simp at hd <;>
        subst hd <;> exact ⟨by simp [he], (pinStep env args key).2, by rw [he]⟩

/-- Witness for C7: in a fully successful encode run the write event is
present and the result is success. -/
theorem no_partial_output_witness :
    (runEncode envW argsPlain cmdW srcW).1 = .ok () :=
  ((no_partial_output envW argsPlain cmdW dcmdW srcW).1 (0 :: srcW) (by decide)).1

/-- Claim C10: a recipient query matching zero certificates does not by
itself cause an error naming that query — it contributes nothing to the
recipient set and processing continues, so encode can reach the build
step with fewer recipients than queries, including zero. -/
theorem empty_recipient_query_skipped (env : Env) (args : AppParams)
    (ecmd : CmsEncodeCmd) (source : List Nat) (q : String) (qs1 qs2 : List String)
    (hq : env.findCert q = .ok []) :
    collectRecipients env (qs1 ++ q :: qs2) = collectRecipients env (qs1 ++ qs2)
    ∧ (∀ r, (runEncode env args ecmd source).1 ≠ .error (.recipientNotFound r))
    ∧ (∀ l c k pv nm,
        env.findCert ecmd.signer = .ok l →
        get_cert_with_key env.acquireKey l args.silent = some c →
        (∀ r ∈ ecmd.recipients, env.findCert r = .ok []) →
        c.key = some k →
        env.getProviderName k = .ok pv →
        env.getKeyName k = .ok nm →
        args.pin = none →
        Event.signAndEncrypt 0 ∈ (runEncode env args ecmd source).2) := by
  refine ⟨?_, ?_, ?_⟩
  · induction qs1 with
    | nil =>
      simp only [List.nil_append, collectRecipients, hq]
      cases hrest : collectRecipients env qs2 with
      | error e => simp
      | ok more => simp
    | cons a as ih =>
      simp only [List.cons_append, collectRecipients, List.append_eq, ih]
  · intro r
    rcases runEncode_structure env args ecmd source with
      ⟨e, he⟩ | ⟨he, -⟩ | ⟨key, e, he, -⟩ | ⟨key, signer, recipients, hp, he⟩
    · simp [he]
    · simp [he]
    · simp [he]
    · rcases encodeTail_result env signer recipients source with
        ⟨h1, -⟩ | ⟨m, -, h1, -⟩ <;> simp [he, h1]
  · intro l c k pv nm h1 h2 h3 h4 h5 h6 h7
    have hcoll : collectRecipients env ecmd.recipients = .ok [] := by
      have := collectRecipients_flatten env ecmd.recipients (fun _ => []) h3
      rwa [flatMap_const_nil] at this
    simp only [runEncode, h1, h2, hcoll, h4, h5, h6, pinStep_noPin env args k h7]
    rcases encodeTail_result env c [] source with ⟨-, d, -, h8⟩ | ⟨m, -, -, h8⟩ <;>
      simp [h8]

/-- Witness for C10: the recipient query `"Zed"` matches nothing, encode
still reaches the pipeline with zero recipients. -/
theorem empty_recipient_query_skipped_witness :
    collectRecipients envW ["Zed"] = collectRecipients envW []
    ∧ Event.signAndEncrypt 0 ∈ (runEncode envW argsPlain cmdEmptyR srcW).2 := by
  have h := empty_recipient_query_skipped envW argsPlain cmdEmptyR srcW "Zed" [] [] rfl
  refine ⟨h.1, ?_⟩
  refine h.2.2 [certBad1, certGood, certBad2] { certGood with key := some kW } kW
    "TestProvider" "TestKey" rfl rfl ?_ rfl rfl rfl rfl
  intro r hr
  simp only [cmdEmptyR, List.mem_singleton] at hr
  subst hr
  rfl

/-- Claim C2 (spec-modelled pipeline): for every plaintext `P`, signer `S`
whose usable private key matches its certificate, and non-empty recipient
set `R`, if the decrypting party's store holds the private key of a
recipient in `R`, then `decryptAndVerify` applied to the output of
`signAndEncrypt` over the built context returns exactly `P`. -/
theorem cms_round_trip (S : Cms.Cert) (skey : Nat) (R : List Cms.Cert)
    (store : List Cms.StoreEntry) (cek : Nat) (P : List Nat)
    (ctx : Cms.CmsContentContext)
    (hbuild : ((Cms.builder.signer S skey).recipients R).build = .ok ctx)
    (hkey : skey = S.keyId)
    (hstore : ∃ r ∈ R, Cms.storeFindKey store r.keyId = true) :
    Cms.decryptAndVerify store (Cms.signAndEncrypt ctx cek P) = .ok P := by
  obtain ⟨r, hrR, hrStore⟩ := hstore
  simp only [Cms.builder, Cms.Builder.signer, Cms.Builder.recipients,
    Cms.Builder.build] at hbuild
  split at hbuild
  · exact absurd hbuild (by simp)
  · simp only [Except.ok.injEq] at hbuild
    subst hbuild
    subst hkey
    have hmem : (⟨r.keyId, Cms.wrapKey r.keyId cek⟩ : Cms.RecipientInfo)
        ∈ R.map (fun rc => (⟨rc.keyId, Cms.wrapKey rc.keyId cek⟩ : Cms.RecipientInfo)) :=
      List.mem_map.mpr ⟨r, hrR, rfl⟩
    have hex : ((R.map fun rc =>
          (⟨rc.keyId, Cms.wrapKey rc.keyId cek⟩ : Cms.RecipientInfo)).find?
        fun ri => Cms.storeFindKey store ri.recipId).isSome := by
      rw [List.find?_isSome]
      exact ⟨_, hmem, hrStore⟩
    obtain ⟨ri, hri⟩ := Option.isSome_iff_exists.mp hex
    obtain ⟨r2, hr2mem, hr2eq⟩ := List.mem_map.mp (List.mem_of_find?_eq_some hri)
    subst hr2eq
    simp only [Cms.decryptAndVerify, Cms.signAndEncrypt, Cms.symEncrypt, hri]
    simp [Cms.unwrapKey, Cms.symDecrypt, Cms.verify, Cms.sign, Cms.wrapKey]

/-- Witness for C2 at a concrete input: context built from the concrete
signer and two recipients, decrypted by the store holding the first
recipient's key. -/
theorem cms_round_trip_witness :
    Cms.decryptAndVerify storeW
        (Cms.signAndEncrypt ⟨certS, 1, [certR1, certR2]⟩ 42 [7, 8, 9])
      = .ok [7, 8, 9] :=
  cms_round_trip certS 1 [certR1, certR2] storeW 42 [7, 8, 9]
    ⟨certS, 1, [certR1, certR2]⟩ rfl rfl ⟨certR1, by simp, rfl⟩

/-- Claim C5 (spec-modelled builder): `build()` fails with
`MissingSigner` when no signer was set, fails with `NoRecipients` when
the recipient set is empty even if a signer is present, and succeeds
otherwise, producing the immutable context. -/
theorem build_error_spec (b : Cms.Builder) :
    (b.signerOpt = none → b.build = .error Cms.BuildError.MissingSigner)
    ∧ (∀ s, b.signerOpt = some s → b.recipientList = [] →
        b.build = .error Cms.BuildError.NoRecipients)
    ∧ (∀ s, b.signerOpt = some s → b.recipientList ≠ [] →
        b.build = .ok ⟨s.1, s.2, b.recipientList⟩) := by
  refine ⟨?_, ?_, ?_⟩
  · intro h
    simp [Cms.Builder.build, h]
  · intro s h hr
    simp [Cms.Builder.build, h, hr]
  · intro s h hr
    simp [Cms.Builder.build, h, hr]

/-- Witness for C5 at concrete builders: no signer, signer with empty
recipients, and a complete builder. -/
theorem build_error_spec_witness :
    Cms.builder.build = .error Cms.BuildError.MissingSigner
    ∧ (Cms.builder.signer certS 1).build = .error Cms.BuildError.NoRecipients
    ∧ ((Cms.builder.signer certS 1).recipients [certR1]).build
        = .ok ⟨certS, 1, [certR1]⟩ :=
  ⟨(build_error_spec Cms.builder).1 rfl,
   (build_error_spec (Cms.builder.signer certS 1)).2.1 (certS, 1) rfl rfl,
   (build_error_spec ((Cms.builder.signer certS 1).recipients [certR1])).2.2
     (certS, 1) rfl (by decide)⟩

end Cmsutil
